import Mathlib

/-!
Shallow embedding of `folders.py` (spotify-folders): a bare-bones LevelDB
reader and a rootlist decoder.  Byte strings are modelled as `List Nat`
(one entry per byte, values < 256 on real inputs); Python strings are kept
at the byte level as well, so `str.decode("utf-8")` is the identity of the
embedding.  Fallible Python code (exceptions: `assert`, `IndexError`,
I/O errors) is modelled with `Option`/`Except`.
-/

abbrev Bytes := List Nat

/-- Little-endian `int.from_bytes(bytestring, byteorder="little")`
(`BytesReader.uint` after the raw read). -/
def uintLE : Bytes → Nat
  | [] => 0
  | b :: rest => b + 256 * uintLE rest

/-- `BytesReader.varint`: base-128 little-endian varint.  Each step reads one
byte (`n_bytes(1)[0]`, which raises `IndexError` on an exhausted buffer,
hence `none`), ORs the low 7 bits shifted by `shift`, and stops when the
continuation bit 0x80 is clear.  Returns the value and the unread rest. -/
def read_varint : Bytes → Nat → Nat → Option (Nat × Bytes)
  | [], _, _ => none
  | b :: rest, shift, value =>
    let value2 := value ||| ((b &&& 127) <<< shift)
    if b &&& 128 = 0 then some (value2, rest)
    else read_varint rest (shift + 7) value2

def varint (l : Bytes) : Option (Nat × Bytes) := read_varint l 0 0

-- ==================================================================
-- Key comparator (`bytestring_less_or_equal` in folders.py)
-- ==================================================================

/-- `bytestring_less_or_equal`: byte-by-byte comparison over the shared
prefix, where the group-separator byte 0x1D sorts after every other byte;
ties fall through to the next position; if the whole shared prefix agrees,
`len(bytestring1) <= len(bytestring2)` decides (equal prefixes consumed on
both sides, so comparing the remainders' lengths is the same test). -/
def bytestring_less_or_equal : Bytes → Bytes → Bool
  | byte1 :: rest1, byte2 :: rest2 =>
    if byte1 = 29 ∧ byte2 ≠ 29 then false
    else if byte1 ≠ 29 ∧ byte2 = 29 then true
    else if byte1 < byte2 then true
    else if byte2 < byte1 then false
    else bytestring_less_or_equal rest1 rest2
  | rest1, rest2 => decide (rest1.length ≤ rest2.length)

-- ==================================================================
-- Rootlist decoder (`parse` in folders.py)
-- ==================================================================

/-- The bytes of `"spotify:"`. -/
def spotifyB : Bytes := [115, 112, 111, 116, 105, 102, 121, 58]
/-- The bytes of `"playlist:"`. -/
def playlistB : Bytes := [112, 108, 97, 121, 108, 105, 115, 116, 58]
/-- The bytes of `"start-group:"`. -/
def startGroupB : Bytes := [115, 116, 97, 114, 116, 45, 103, 114, 111, 117, 112, 58]
/-- The bytes of `"end-group:"`. -/
def endGroupB : Bytes := [101, 110, 100, 45, 103, 114, 111, 117, 112, 58]
/-- The bytes of `"spotify:user:"`. -/
def spotifyUserB : Bytes := [115, 112, 111, 116, 105, 102, 121, 58, 117, 115, 101, 114, 58]
/-- The bytes of `":folder:"`. -/
def folderColonB : Bytes := [58, 102, 111, 108, 100, 101, 114, 58]

/-- Does the byte string begin with `"spotify:"` immediately followed by one
of `p`, `s`, `e`?  This is the split point of
`re.split(rb"spotify:(?=[pse])", data)`. -/
def isRowMarker (l : Bytes) : Bool :=
  spotifyB.isPrefixOf l &&
    (match l.drop 8 with
     | c :: _ => c == 112 || c == 115 || c == 101
     | [] => false)

/-- Left-to-right scan implementing `re.split(rb"spotify:(?=[pse])", data)`:
on a marker the accumulated row is emitted, the eight bytes of `"spotify:"`
are consumed (the current byte now, seven more via the skip counter), and
the next row starts at the look-ahead byte. -/
def splitRowsGo : Bytes → Nat → Bytes → List Bytes
  | [], _, acc => [acc.reverse]
  | _ :: rest, Nat.succ k, acc => splitRowsGo rest k acc
  | b :: rest, 0, acc =>
    if isRowMarker (b :: rest) then acc.reverse :: splitRowsGo rest 7 []
    else splitRowsGo rest 0 (b :: acc)

def splitRows (data : Bytes) : List Bytes := splitRowsGo data 0 []

/-- `row.split(b"\x12", 1)[0]`: keep the bytes before the first 0x12. -/
def truncRow (row : Bytes) : Bytes := row.takeWhile (fun b => b ≠ 18)

/-- `urllib.parse.unquote_plus` at the byte level: `+` (0x2B) becomes a
space, `%` followed by two hex digits becomes that byte, anything else is
kept (an invalid `%`-escape stays literal and scanning resumes right after
the `%`, matching Python's split-on-`%` behaviour). -/
def isHexDigit (b : Nat) : Bool :=
  (48 ≤ b && b ≤ 57) || (65 ≤ b && b ≤ 70) || (97 ≤ b && b ≤ 102)

def hexVal (b : Nat) : Nat :=
  if b ≤ 57 then b - 48 else if b ≤ 70 then b - 55 else b - 87

def unquote_plus : Bytes → Bytes
  | [] => []
  | 43 :: rest => 32 :: unquote_plus rest
  | 37 :: a :: b :: rest =>
    if isHexDigit a && isHexDigit b then (16 * hexVal a + hexVal b) :: unquote_plus rest
    else 37 :: unquote_plus (a :: b :: rest)
  | b :: rest => b :: unquote_plus rest

/-- `str.zfill(width)`: left-pad with `"0"` to `width`, keeping a leading
sign character (`+`/`-`) in front of the padding. -/
def zfill (width : Nat) (s : Bytes) : Bytes :=
  if width ≤ s.length then s
  else
    match s with
    | [] => List.replicate width 48
    | c :: rest =>
      if c = 43 ∨ c = 45 then c :: (List.replicate (width - s.length) 48 ++ rest)
      else List.replicate (width - s.length) 48 ++ (c :: rest)

/-- `bytes.split(b":")` (split at every colon, no maxsplit). -/
def splitOnByte (sep : Nat) : Bytes → List Bytes
  | [] => [[]]
  | b :: rest =>
    if b = sep then [] :: splitOnByte sep rest
    else
      match splitOnByte sep rest with
      | t :: ts => (b :: t) :: ts
      | [] => [[b]]

/-- `tags[-1]` and `tags[-2]` of `tags = row.split(b":")`; `none` models the
`IndexError` when fewer than two tags exist (unreachable for rows that start
with `"start-group:"`). -/
def segPair (r : Bytes) : Option (Bytes × Bytes) :=
  match (splitOnByte 58 r).reverse with
  | lastT :: sndLastT :: _ => some (lastT, sndLastT)
  | _ => none

/-- A node of the decoded tree: `{"type": "playlist", "uri": ...}` or
`{"type": "folder", "name"?, "uri"?, "children": [...]}`.  The root folder
dict carries no `name`/`uri` keys, hence the `Option` fields. -/
inductive Node where
  | playlist (uri : Bytes)
  | folder (name : Option Bytes) (uri : Option Bytes) (children : List Node)

/-- A folder dict still under construction in `parse`'s loop. -/
structure PFolder where
  name : Option Bytes
  uri : Option Bytes
  children : List Node

def PFolder.toNode (f : PFolder) : Node := Node.folder f.name f.uri f.children

def PFolder.addChild (f : PFolder) (c : Node) : PFolder :=
  ⟨f.name, f.uri, f.children ++ [c]⟩

/-- The `while len(stack) > 0` epilogue of `parse`: close any still-open
groups by repeatedly popping and appending. -/
def close_all : PFolder → List PFolder → Node
  | cur, [] => cur.toNode
  | cur, parent :: stack => close_all (parent.addChild cur.toNode) stack

/-- The row loop of `parse`.  Each row is truncated at the first 0x12 byte
and then dispatched on its prefix exactly as the `if`/`elif` chain does.
`none` models the uncaught `IndexError` raised by `stack.pop()` when an
`end-group` row arrives with an empty stack (and the unreachable
`tags[-2]` failure). -/
def parse_rows (user_id : Bytes) : List Bytes → PFolder → List PFolder → Option Node
  | [], cur, stack => some (close_all cur stack)
  | row :: rest, cur, stack =>
    let r := truncRow row
    if playlistB.isPrefixOf r then
      parse_rows user_id rest (cur.addChild (Node.playlist (spotifyB ++ r))) stack
    else if startGroupB.isPrefixOf r then
      match segPair r with
      | some (lastT, sndLastT) =>
        parse_rows user_id rest
          ⟨some (unquote_plus lastT),
           some (spotifyUserB ++ user_id ++ folderColonB ++ zfill 16 sndLastT),
           []⟩
          (cur :: stack)
      | none => none
    else if endGroupB.isPrefixOf r then
      match stack with
      | [] => none
      | parent :: stack2 => parse_rows user_id rest (parent.addChild cur.toNode) stack2
    else parse_rows user_id rest cur stack

/-- `parse(data, user_id)`: split into rows, run the row loop starting from
the bare root folder and an empty stack. -/
def parse (data : Bytes) (user_id : Bytes) : Option Node :=
  parse_rows user_id (splitRows data) ⟨none, none, []⟩ []

-- Row classification helpers mirroring the `if`/`elif` chain (each branch
-- is reached only when the previous prefix tests failed).

def isPlaylistRow (row : Bytes) : Bool := playlistB.isPrefixOf (truncRow row)

def isStartGroupRow (row : Bytes) : Bool :=
  !(isPlaylistRow row) && startGroupB.isPrefixOf (truncRow row)

def isEndGroupRow (row : Bytes) : Bool :=
  !(isPlaylistRow row) && !(startGroupB.isPrefixOf (truncRow row)) &&
    endGroupB.isPrefixOf (truncRow row)

-- ==================================================================
-- `get_folder` (folders.py)
-- ==================================================================

mutual
/-- `get_folder(folder_id, data)`: on a folder whose `uri` (default `""`)
ends with `folder_id`, return it; otherwise search the children in order;
on a playlist (type not `"folder"`) return `None`. -/
def get_folder (folder_id : Bytes) : Node → Option Node
  | Node.playlist _ => none
  | Node.folder name uri children =>
    if folder_id.isSuffixOf (uri.getD []) then some (Node.folder name uri children)
    else get_folder_children folder_id children

/-- The `for child in data.get("children", [])` loop: first non-`None`
recursive result wins. -/
def get_folder_children (folder_id : Bytes) : List Node → Option Node
  | [] => none
  | c :: cs =>
    match get_folder folder_id c with
    | some f => some f
    | none => get_folder_children folder_id cs
end

mutual
/-- Depth-first pre-order list of the folder nodes of a tree (the node
itself first, then its children left to right); playlists contribute
nothing.  Specification-side definition used to characterise
`get_folder`. -/
def folderPreorder : Node → List Node
  | Node.playlist _ => []
  | Node.folder name uri children =>
    Node.folder name uri children :: folderPreorderList children

def folderPreorderList : List Node → List Node
  | [] => []
  | c :: cs => folderPreorder c ++ folderPreorderList cs
end

/-- The `uri` a folder node presents to `get_folder`'s suffix test
(`data.get("uri", "")`). -/
def nodeFolderUri : Node → Bytes
  | Node.playlist uri => uri
  | Node.folder _ uri _ => uri.getD []

/-- Is the node's `"type"` equal to `"folder"`? -/
def nodeIsFolder : Node → Bool
  | Node.playlist _ => false
  | Node.folder _ _ _ => true

-- ==================================================================
-- Log-segment reader (`LogReader`, `Batch` in folders.py)
-- ==================================================================

def FULL_RECORD : Nat := 1
def FIRST_RECORD : Nat := 2
def MIDDLE_RECORD : Nat := 3
def LAST_RECORD : Nat := 4

/-- A batch operation: `("put", (key, value))` or `("delete", (key,))`. -/
inductive Op where
  | put (key value : Bytes)
  | del (key : Bytes)
deriving DecidableEq

/-- The logical layer of `LogReader.__iter__` over the stream of fragments
(pairs of fragment type and payload): every fragment's data is written to
the batch buffer, and the buffer is yielded and cleared whenever the
fragment type is FULL or LAST.  No other inspection of the type sequence
happens. -/
def LogReader.assemble (batch_buffer : Bytes) : List (Nat × Bytes) → List Bytes
  | [] => []
  | (t, d) :: rest =>
    let buf := batch_buffer ++ d
    if t = FULL_RECORD ∨ t = LAST_RECORD then buf :: LogReader.assemble [] rest
    else LogReader.assemble buf rest

def LogReader.batches (fragments : List (Nat × Bytes)) : List Bytes :=
  LogReader.assemble [] fragments

/-- `Batch.count`: the u32 at offset 8 of the batch buffer (read after the
u64 sequence number). -/
def Batch.count (buf : Bytes) : Nat := uintLE ((buf.drop 8).take 4)

/-- One operation of `Batch.__iter__`: `value_type = uint(1)` (a short read
of an exhausted buffer yields 0), a varint key length, the key bytes, and
for `value_type == 1` (PUT) a varint value length and the value bytes;
every other `value_type` is a DELETE. -/
def decodeOp (l : Bytes) : Option (Op × Bytes) :=
  let value_type := uintLE (l.take 1)
  let l1 := l.drop 1
  match varint l1 with
  | none => none
  | some (size, l2) =>
    let key := l2.take size
    let l3 := l2.drop size
    if value_type = 1 then
      match varint l3 with
      | none => none
      | some (vsize, l4) => some (Op.put key (l4.take vsize), l4.drop vsize)
    else some (Op.del key, l3)

/-- The `for i in range(self.count)` loop of `Batch.__iter__`. -/
def decodeOps : Nat → Bytes → Option (List Op × Bytes)
  | 0, l => some ([], l)
  | Nat.succ n, l =>
    match decodeOp l with
    | none => none
    | some (op, l2) =>
      match decodeOps n l2 with
      | none => none
      | some (ops, l3) => some (op :: ops, l3)

/-- `Batch.__iter__` as a whole, over the raw batch buffer: after the
12-byte header, an empty buffer yields no operations (the early `return`);
otherwise `count` operations are decoded and the final
`assert reader.bytes_left() == 0` fails (`none`) when bytes remain. -/
def Batch.ops (buf : Bytes) : Option (List Op) :=
  let payload := buf.drop 12
  if payload.length = 0 then some []
  else
    match decodeOps (Batch.count buf) payload with
    | none => none
    | some (ops, rest) => if rest.length = 0 then some ops else none

/-- The inner loop of `LogReader.find` over one batch's operations:
non-`"put"` commands are skipped, and a PUT whose key equals the target
overwrites `last_value`. -/
def LogReader.scan_ops (target_key : Bytes) (last_value : Option Bytes) :
    List Op → Option Bytes
  | [] => last_value
  | Op.put key value :: rest =>
    LogReader.scan_ops target_key
      (if key = target_key then some value else last_value) rest
  | Op.del _ :: rest => LogReader.scan_ops target_key last_value rest

/-- The outer loop of `LogReader.find` over all batches. -/
def LogReader.scan_batches (target_key : Bytes) (last_value : Option Bytes) :
    List (List Op) → Option Bytes
  | [] => last_value
  | b :: bs =>
    LogReader.scan_batches target_key (LogReader.scan_ops target_key last_value b) bs

/-- `LogReader.find(target_key, ...)` over the decoded batches: the value of
the last matching PUT, or `none`. -/
def LogReader.find (target_key : Bytes) (batches : List (List Op)) : Option Bytes :=
  LogReader.scan_batches target_key none batches

-- ==================================================================
-- Table-file reader (`TableReader`, `TableFooter` in folders.py)
-- ==================================================================

/-- The inner loop of `TableReader.find` over one decoded data block
(pairs of internal-key user key and value): return the value of the first
entry whose user key equals the target. -/
def TableData.first_match (target_key : Bytes) : List (Bytes × Bytes) → Option Bytes
  | [] => none
  | (user_key, value) :: rest =>
    if user_key = target_key then some value else TableData.first_match target_key rest

/-- `TableReader.find(target_key, ...)` over the decoded index (pairs of
index-entry user key and referenced data-block entries): index entries with
`not bytestring_less_or_equal(target_key, user_key)` are skipped
(`continue`); at the first remaining entry the referenced block is scanned
and then the loop `break`s, so no later block is consulted. -/
def TableReader.find (target_key : Bytes) :
    List (Bytes × List (Bytes × Bytes)) → Option Bytes
  | [] => none
  | (index_user_key, block) :: rest =>
    if ¬ bytestring_less_or_equal target_key index_user_key then
      TableReader.find target_key rest
    else TableData.first_match target_key block

/-- Specification-side restatement of §4.D *find*: walk the index in order,
take the first entry whose user key is ≥ the target under the comparator,
and return the value of the first matching entry of that block only. -/
def specTableFind (target_key : Bytes)
    (index : List (Bytes × List (Bytes × Bytes))) : Option Bytes :=
  match index.find? (fun e => bytestring_less_or_equal target_key e.1) with
  | none => none
  | some e =>
    match e.2.find? (fun p => decide (p.1 = target_key)) with
    | none => none
    | some p => some p.2

def TableFooter.MAGIC_NUMBER : Nat := 0xDB4775248B80FB57

/-- `TableFooter.check_magic_number`: read the u64 in the last eight bytes
of the file and `assert` it equals the magic number; the failing assertion
is an uncaught exception, modelled as `Except.error`. -/
def TableFooter.check_magic_number (file : Bytes) : Except Unit Unit :=
  if uintLE ((file.drop (file.length - 8)).take 8) = TableFooter.MAGIC_NUMBER then
    Except.ok ()
  else Except.error ()

-- ==================================================================
-- Rootlist locator (`SpotifyLevelDB` in folders.py)
-- ==================================================================

/-- The bytes of `".log"`. -/
def dotLogB : Bytes := [46, 108, 111, 103]
/-- The bytes of `".ldb"`. -/
def dotLdbB : Bytes := [46, 108, 100, 98]
/-- The bytes of `"-user"`. -/
def dashUserB : Bytes := [45, 117, 115, 101, 114]

/-- `LEVELDB_ROOTLIST_KEY`, the bytes of
`"!pl#slc#\x1dspotify:user:\x7b\x7d:rootlist#"`. -/
def LEVELDB_ROOTLIST_KEY : Bytes :=
  [33, 112, 108, 35, 115, 108, 99, 35, 29,
   115, 112, 111, 116, 105, 102, 121, 58, 117, 115, 101, 114, 58,
   123, 125,
   58, 114, 111, 111, 116, 108, 105, 115, 116, 35]

/-- `bytes.replace(b"\x7b\x7d", username)`: replace every (non-overlapping)
occurrence of the two-byte sequence 0x7B 0x7D. -/
def bytesReplaceBraces : Bytes → Bytes → Bytes
  | 123 :: 125 :: rest, u => u ++ bytesReplaceBraces rest u
  | b :: rest, u => b :: bytesReplaceBraces rest u
  | [], _ => []

def SpotifyLevelDB.make_key_from_username (username : Bytes) : Bytes :=
  bytesReplaceBraces LEVELDB_ROOTLIST_KEY username

/-- `os.path.split` (POSIX): split at the final `/`; the head keeps its
trailing slashes stripped unless it consists only of slashes. -/
def posixSplit (p : Bytes) : Bytes × Bytes :=
  let i := p.length - (p.reverse.takeWhile (fun c => c ≠ 47)).length
  let head := p.take i
  let tail := p.drop i
  let head2 :=
    if head ≠ [] ∧ head ≠ List.replicate head.length 47 then
      (head.reverse.dropWhile (fun c => c = 47)).reverse
    else head
  (head2, tail)

/-- The `while head != last_head` loop of
`SpotifyLevelDB.extract_username_from_filepath`: split off the last path
component; if it ends in `"-user"` return `tail.rsplit("-")[0]` — note that
Python's `rsplit("-")` *without* a maxsplit splits at every dash, so index
`[0]` is the part before the *first* dash, i.e. `takeWhile (≠ 45)`.  Stop
when the head stops changing.  The fuel argument is only a termination
bound: each iteration either stops or strictly shortens `head` (the new
head is a proper prefix of the old one), so `length + 1` steps always
suffice. -/
def extract_go : Nat → Bytes → Option Bytes
  | 0, _ => none
  | Nat.succ n, head =>
    let ht := posixSplit head
    if dashUserB.isSuffixOf ht.2 then some (ht.2.takeWhile (fun b => b ≠ 45))
    else if ht.1 = head then none
    else extract_go n ht.1

def SpotifyLevelDB.extract_username_from_filepath (filepath : Bytes) : Option Bytes :=
  extract_go (filepath.length + 1) filepath

/-- `SpotifyLevelDB.make_key_from_filepath`: build a key from the username
inferred from the path; `if username:` makes both `None` and `""` yield
`None`. -/
def SpotifyLevelDB.make_key_from_filepath (filepath : Bytes) : Option Bytes :=
  match SpotifyLevelDB.extract_username_from_filepath filepath with
  | some u => if u = [] then none else some (SpotifyLevelDB.make_key_from_username u)
  | none => none

/-- Python truthiness of an optional byte string: `None` and `b""` are
falsy. -/
def truthyBytes : Option Bytes → Bool
  | none => false
  | some b => decide (b ≠ [])

/-- The `seek` closure inside `SpotifyLevelDB.get`.  `find_fn` stands for
`reader_cls.find`; reading a file can raise (I/O error, failing `assert`,
`IndexError`), and nothing in `seek` catches: the error propagates out of
the whole scan.  Files with the wrong suffix are skipped; with no usable
key (`if not key:` twice) the file is skipped, the rebound key carrying
over to later iterations; a falsy (`None` or empty) find result means
"keep scanning". -/
def SpotifyLevelDB.seek (find_fn : Bytes → Bytes → Except Unit (Option Bytes))
    (file_suffix : Bytes) :
    Option Bytes → List Bytes → Except Unit (Option (Option Bytes × Bytes))
  | _, [] => Except.ok none
  | key, filepath :: rest =>
    if ¬ file_suffix.isSuffixOf filepath then
      SpotifyLevelDB.seek find_fn file_suffix key rest
    else
      match (if truthyBytes key then key
             else SpotifyLevelDB.make_key_from_filepath filepath) with
      | none => SpotifyLevelDB.seek find_fn file_suffix none rest
      | some k =>
        if k = [] then SpotifyLevelDB.seek find_fn file_suffix (some k) rest
        else
          match find_fn k filepath with
          | Except.error e => Except.error e
          | Except.ok value =>
            if truthyBytes value then
              Except.ok
                (some (SpotifyLevelDB.extract_username_from_filepath filepath,
                       value.getD []))
            else SpotifyLevelDB.seek find_fn file_suffix (some k) rest

/-- `SpotifyLevelDB.get(username, db_dirpath)` over the already-enumerated
candidate files: build the key from the username when one is given
(`if username` treats `""` as absent), scan the `.log` files with the log
reader's find, then the `.ldb` files with the table reader's find, and
fall back to `(None, None)`. -/
def SpotifyLevelDB.get (username : Option Bytes) (files : List Bytes)
    (log_find ldb_find : Bytes → Bytes → Except Unit (Option Bytes)) :
    Except Unit (Option Bytes × Option Bytes) :=
  let key : Option Bytes :=
    match username with
    | some u => if u = [] then none else some (SpotifyLevelDB.make_key_from_username u)
    | none => none
  match SpotifyLevelDB.seek log_find dotLogB key files with
  | Except.error e => Except.error e
  | Except.ok (some r) => Except.ok (r.1, some r.2)
  | Except.ok none =>
    match SpotifyLevelDB.seek ldb_find dotLdbB key files with
    | Except.error e => Except.error e
    | Except.ok (some r) => Except.ok (r.1, some r.2)
    | Except.ok none => Except.ok (none, none)

-- ==================================================================
-- Specification-side definitions used by individual claims
-- ==================================================================

/-- Concatenation of a list of lists. -/
def joinAll : List (List α) → List α
  | [] => []
  | l :: ls => l ++ joinAll ls

/-- The payload bytes of a fragment list, concatenated. -/
def joinData : List (Nat × Bytes) → Bytes
  | [] => []
  | f :: rest => f.2 ++ joinData rest

/-- Modelled from the claim's words for C4 (the spec's §4.C logical layer):
a batch starts only on a FULL or FIRST fragment and ends on that FULL or on
the matching LAST; MIDDLE fragments append; on a type-sequence violation
the partial buffer is discarded and reading resynchronises at the next
FULL/FIRST.  The `Option Bytes` state is the open batch buffer, `none`
when no batch is open. -/
def claimedResyncBatches : Option Bytes → List (Nat × Bytes) → List Bytes
  | _, [] => []
  | none, (t, d) :: rest =>
    if t = FULL_RECORD then d :: claimedResyncBatches none rest
    else if t = FIRST_RECORD then claimedResyncBatches (some d) rest
    else claimedResyncBatches none rest
  | some buf, (t, d) :: rest =>
    if t = MIDDLE_RECORD then claimedResyncBatches (some (buf ++ d)) rest
    else if t = LAST_RECORD then (buf ++ d) :: claimedResyncBatches none rest
    else if t = FULL_RECORD then d :: claimedResyncBatches none rest
    else if t = FIRST_RECORD then claimedResyncBatches (some d) rest
    else claimedResyncBatches none rest

/-- Specification-side description of `LogReader.find`: the last element of
the list of values of the PUT operations whose key equals the target, in
iteration order. -/
def lastPutValue (target_key : Bytes) (ops : List Op) : Option Bytes :=
  (ops.filterMap (fun op =>
    match op with
    | Op.put k v => if k = target_key then some v else none
    | Op.del _ => none)).getLast?

/-- `match`-based `Option.orElse` on byte strings (first operand wins). -/
def orOpt (a b : Option Bytes) : Option Bytes :=
  match a with
  | some v => some v
  | none => b

-- ==================================================================
-- Concrete inputs used by individual claims
-- ==================================================================

/-- The bytes of `"a.ldb"`. -/
def filepathALdb : Bytes := [97] ++ dotLdbB
/-- The bytes of `"b.ldb"`. -/
def filepathBLdb : Bytes := [98] ++ dotLdbB
/-- An 8-byte `.ldb` file whose footer magic number is wrong. -/
def badTableContent : Bytes := [0, 0, 0, 0, 0, 0, 0, 0]
/-- A `TableReader.find`-shaped reader for the C1 scenario: reading
`"a.ldb"` checks `badTableContent`'s footer magic (which fails, an uncaught
`AssertionError`), while any other file cleanly yields the value `[7]`. -/
def findWithMagicCheck : Bytes → Bytes → Except Unit (Option Bytes) := fun _ fp =>
  if fp = filepathALdb then
    match TableFooter.check_magic_number badTableContent with
    | Except.ok _ => Except.ok none
    | Except.error e => Except.error e
  else Except.ok (some [7])

/-- The bytes of `"spotify:end-group:x"`. -/
def endGroupOnlyData : Bytes := spotifyB ++ endGroupB ++ [120]

/-- A batch buffer with one trailing byte after its declared operations:
sequence number 0, count 1, one DELETE of key `"A"`, then a stray `99`. -/
def trailingBatchBuf : Bytes :=
  [0, 0, 0, 0, 0, 0, 0, 0] ++ [1, 0, 0, 0] ++ [0, 1, 65] ++ [99]

/-- A well-formed batch buffer: sequence number 0, count 1, one DELETE of
key `"A"`, nothing left over. -/
def wellFormedBatchBuf : Bytes :=
  [0, 0, 0, 0, 0, 0, 0, 0] ++ [1, 0, 0, 0] ++ [0, 1, 65]

/-- The bytes of `"Users/a-b-user/0003.log"`. -/
def dashedUserPath : Bytes :=
  [85, 115, 101, 114, 115, 47] ++ [97, 45, 98, 45, 117, 115, 101, 114] ++
    [47, 48, 48, 48, 51, 46, 108, 111, 103]
/-- The bytes of `"b-user/a-user/f"` (two `-user` segments; the one nearer
the leaf is `"a-user"`). -/
def twoUserPath : Bytes :=
  [98, 45, 117, 115, 101, 114, 47] ++ [97, 45, 117, 115, 101, 114] ++ [47, 102]

-- ==================================================================
-- Shared helper lemmas
-- ==================================================================

theorem orOpt_assoc (a b c : Option Bytes) :
    orOpt (orOpt a b) c = orOpt a (orOpt b c) := by
  cases a <;> simp [orOpt]

theorem orOpt_none_right (a : Option Bytes) : orOpt a none = a := by
  cases a <;> simp [orOpt]

theorem orOpt_some_right (a : Option Bytes) (b : Bytes) (c : Option Bytes) :
    orOpt (orOpt a (some b)) c = orOpt a (some b) := by
  cases a <;> simp [orOpt]

theorem getLast?_cons_or (l : List Bytes) (a : Bytes) :
    (a :: l).getLast? = orOpt l.getLast? (some a) := by
  induction l generalizing a with
  | nil => simp [orOpt]
  | cons b l ih => rw [List.getLast?_cons_cons, ih b, orOpt_some_right]

theorem getLast?_append_or (l₁ l₂ : List Bytes) :
    (l₁ ++ l₂).getLast? = orOpt l₂.getLast? l₁.getLast? := by
  induction l₁ with
  | nil => simp [orOpt_none_right]
  | cons a l₁ ih =>
    rw [List.cons_append, getLast?_cons_or, ih, orOpt_assoc, ← getLast?_cons_or]

theorem bytestring_le_skip_equal (a : Nat) (r1 r2 : Bytes) :
    bytestring_less_or_equal (a :: r1) (a :: r2) = bytestring_less_or_equal r1 r2 := by
  have h1 : ¬ (a = 29 ∧ a ≠ 29) := by tauto
  have h2 : ¬ (a ≠ 29 ∧ a = 29) := by tauto
  simp [bytestring_less_or_equal, h1, h2]

theorem bytestring_le_first_diff (p : Bytes) (x y : Nat) (s t : Bytes) (h : x ≠ y) :
    bytestring_less_or_equal (p ++ x :: s) (p ++ y :: t) =
      (if x = 29 then false else if y = 29 then true else decide (x < y)) := by
  induction p with
  | nil =>
    simp only [List.nil_append]
    by_cases hx : x = 29
    · subst hx
      have hy : y ≠ 29 := fun hh => h hh.symm
      simp [bytestring_less_or_equal, hy]
    · by_cases hy : y = 29
      · subst hy
        simp [bytestring_less_or_equal, hx]
      · by_cases hlt : x < y
        · simp [bytestring_less_or_equal, hx, hy, hlt]
        · have hgt : y < x := by omega
          simp [bytestring_less_or_equal, hx, hy, hlt, hgt, Nat.lt_asymm hgt]
  | cons a p ih =>
    simpa [bytestring_le_skip_equal] using ih

theorem bytestring_le_shared_prefix (p t : Bytes) :
    bytestring_less_or_equal p (p ++ t) = true := by
  induction p with
  | nil => simp [bytestring_less_or_equal]
  | cons a p ih => simpa [bytestring_le_skip_equal] using ih

-- ==================================================================
-- C6
-- ==================================================================

/-- C6: the key comparator `bytestring_less_or_equal` decides at the first
differing position of the shared prefix, where a 0x1D (GS) byte orders
after any non-GS byte and otherwise the unsigned byte value decides; with
an equal shared prefix the shorter string is not greater; in particular
`less_or_equal("ab\x1d", "ab\x1e")` is false and
`less_or_equal("ab", "ab\x1d")` is true. -/
theorem c6_comparator :
    (∀ (p : Bytes) (x y : Nat) (s t : Bytes), x ≠ y →
      bytestring_less_or_equal (p ++ x :: s) (p ++ y :: t) =
        (if x = 29 then false else if y = 29 then true else decide (x < y))) ∧
    (∀ (p t : Bytes), bytestring_less_or_equal p (p ++ t) = true) ∧
    bytestring_less_or_equal [97, 98, 29] [97, 98, 30] = false ∧
    bytestring_less_or_equal [97, 98] [97, 98, 29] = true :=
  ⟨fun p x y s t h => bytestring_le_first_diff p x y s t h,
   fun p t => bytestring_le_shared_prefix p t, rfl, rfl⟩

/-- Witness for C6 at a concrete input: position 1 compares GS against
0x1E, so the GS side is not less-or-equal. -/
theorem c6_comparator_witness : bytestring_less_or_equal [97, 29] [97, 30] = false := by
  have h := c6_comparator.1 [97] 29 30 [] [] (by decide)
  simpa using h

-- ==================================================================
-- C7
-- ==================================================================

theorem first_match_eq_find? (target_key : Bytes) :
    ∀ blk : List (Bytes × Bytes),
      TableData.first_match target_key blk =
        (match blk.find? (fun p => decide (p.1 = target_key)) with
         | none => none
         | some p => some p.2) := by
  intro blk
  induction blk with
  | nil => rfl
  | cons e rest ih =>
    obtain ⟨uk, v⟩ := e
    by_cases h : uk = target_key
    · simp [TableData.first_match, List.find?_cons, h]
    · simp [TableData.first_match, List.find?_cons, h, ih]

theorem tableFind_eq_spec (target_key : Bytes) :
    ∀ index : List (Bytes × List (Bytes × Bytes)),
      TableReader.find target_key index = specTableFind target_key index := by
  intro index
  induction index with
  | nil => rfl
  | cons e rest ih =>
    obtain ⟨k, blk⟩ := e
    by_cases h : bytestring_less_or_equal target_key k
    · simp [TableReader.find, specTableFind, List.find?_cons, h, first_match_eq_find?]
    · have hspec : specTableFind target_key ((k, blk) :: rest) =
          specTableFind target_key rest := by
        simp [specTableFind, List.find?_cons, h]
      have hfind : TableReader.find target_key ((k, blk) :: rest) =
          TableReader.find target_key rest := by
        simp [TableReader.find, h]
      rw [hfind, hspec]
      exact ih

/-- C7: `TableReader.find` walks the index in order, skipping every entry
whose user key is strictly below the target under the GS comparator, scans
only the data block of the first entry with user key ≥ target for an exact
user-key match, and stops (returning nothing) without consulting any later
block when that block is exhausted.  Stated as equality with the
specification-side `specTableFind` plus the two loop laws (skip on
`continue`, stop after the first qualifying block). -/
theorem c7_table_find :
    (∀ (target_key : Bytes) (index : List (Bytes × List (Bytes × Bytes))),
      TableReader.find target_key index = specTableFind target_key index) ∧
    (∀ (target_key k : Bytes) (blk : List (Bytes × Bytes))
       (rest : List (Bytes × List (Bytes × Bytes))),
      bytestring_less_or_equal target_key k = false →
      TableReader.find target_key ((k, blk) :: rest) = TableReader.find target_key rest) ∧
    (∀ (target_key k : Bytes) (blk : List (Bytes × Bytes))
       (rest : List (Bytes × List (Bytes × Bytes))),
      bytestring_less_or_equal target_key k = true →
      TableReader.find target_key ((k, blk) :: rest) = TableData.first_match target_key blk) := by
  refine ⟨fun t i => tableFind_eq_spec t i, ?_, ?_⟩
  · intro target_key k blk rest h
    simp [TableReader.find, h]
  · intro target_key k blk rest h
    simp [TableReader.find, h]

/-- Witness for C7 at concrete inputs: the target `[29]` (the GS byte)
skips the index entry with user key `[30]` (GS sorts after non-GS, so the
entry's key is below the target), and at an entry with an equal user key
only that entry's block is scanned. -/
theorem c7_table_find_witness :
    TableReader.find [29] (([30], [([30], [5])]) :: [([29], [([29], [6])])]) =
      TableReader.find [29] [([29], [([29], [6])])] ∧
    TableReader.find [29] (([29], [([29], [6])]) :: [([30], [([30], [5])])]) =
      TableData.first_match [29] [([29], [6])] :=
  ⟨c7_table_find.2.1 [29] [30] [([30], [5])] [([29], [([29], [6])])] (by decide),
   c7_table_find.2.2 [29] [29] [([29], [6])] [([30], [([30], [5])])] (by decide)⟩

-- ==================================================================
-- C9
-- ==================================================================

theorem scan_ops_eq (target_key : Bytes) :
    ∀ (ops : List Op) (acc : Option Bytes),
      LogReader.scan_ops target_key acc ops = orOpt (lastPutValue target_key ops) acc := by
  intro ops
  induction ops with
  | nil => intro acc; simp [LogReader.scan_ops, lastPutValue, orOpt]
  | cons op rest ih =>
    intro acc
    cases op with
    | put k v =>
      by_cases h : k = target_key
      · rw [show LogReader.scan_ops target_key acc (Op.put k v :: rest) =
            LogReader.scan_ops target_key (some v) rest from by simp [LogReader.scan_ops, h]]
        rw [ih (some v)]
        have hl : lastPutValue target_key (Op.put k v :: rest) =
            orOpt (lastPutValue target_key rest) (some v) := by
          simp only [lastPutValue, List.filterMap_cons, h, if_pos rfl]
          exact getLast?_cons_or _ v
        rw [hl, orOpt_some_right]
      · rw [show LogReader.scan_ops target_key acc (Op.put k v :: rest) =
            LogReader.scan_ops target_key acc rest from by simp [LogReader.scan_ops, h]]
        rw [ih acc]
        have hl : lastPutValue target_key (Op.put k v :: rest) =
            lastPutValue target_key rest := by
          simp [lastPutValue, List.filterMap_cons, h]
        rw [hl]
    | del k =>
      rw [show LogReader.scan_ops target_key acc (Op.del k :: rest) =
          LogReader.scan_ops target_key acc rest from by simp [LogReader.scan_ops]]
      rw [ih acc]
      have hl : lastPutValue target_key (Op.del k :: rest) =
          lastPutValue target_key rest := by
        simp [lastPutValue, List.filterMap_cons]
      rw [hl]

theorem lastPutValue_append (target_key : Bytes) (l₁ l₂ : List Op) :
    lastPutValue target_key (l₁ ++ l₂) =
      orOpt (lastPutValue target_key l₂) (lastPutValue target_key l₁) := by
  simp only [lastPutValue, List.filterMap_append]
  exact getLast?_append_or _ _

theorem scan_batches_eq (target_key : Bytes) :
    ∀ (bs : List (List Op)) (acc : Option Bytes),
      LogReader.scan_batches target_key acc bs =
        orOpt (lastPutValue target_key (joinAll bs)) acc := by
  intro bs
  induction bs with
  | nil => intro acc; simp [LogReader.scan_batches, joinAll, lastPutValue, orOpt]
  | cons b bs ih =>
    intro acc
    rw [show LogReader.scan_batches target_key acc (b :: bs) =
        LogReader.scan_batches target_key (LogReader.scan_ops target_key acc b) bs from rfl]
    rw [ih, scan_ops_eq, show joinAll (b :: bs) = b ++ joinAll bs from rfl,
        lastPutValue_append, orOpt_assoc]

/-- C9: `LogReader.find` returns the value of the last PUT operation, in
batch iteration order, whose key equals the target; DELETE operations are
ignored entirely, so appending a DELETE of the target key never changes
the result. -/
theorem c9_log_find :
    (∀ (target_key : Bytes) (batches : List (List Op)),
      LogReader.find target_key batches = lastPutValue target_key (joinAll batches)) ∧
    (∀ (target_key : Bytes) (batches : List (List Op)) (k : Bytes),
      LogReader.find target_key (batches ++ [[Op.del k]]) =
        LogReader.find target_key batches) := by
  have hmain : ∀ (target_key : Bytes) (batches : List (List Op)),
      LogReader.find target_key batches = lastPutValue target_key (joinAll batches) := by
    intro t bs
    rw [LogReader.find, scan_batches_eq, orOpt_none_right]
  refine ⟨hmain, ?_⟩
  intro t bs k
  rw [hmain, hmain]
  have hj : joinAll (bs ++ [[Op.del k]]) = joinAll bs ++ [Op.del k] := by
    induction bs with
    | nil => rfl
    | cons b bs ih => simp [joinAll, ih]
  rw [hj, lastPutValue_append]
  simp [lastPutValue, List.filterMap, orOpt]

-- ==================================================================
-- C4
-- ==================================================================

theorem assemble_accumulates (t : Nat) (d : Bytes) :
    ∀ (pre : List (Nat × Bytes)) (buf : Bytes) (rest : List (Nat × Bytes)),
      (∀ f ∈ pre, ¬(f.1 = FULL_RECORD ∨ f.1 = LAST_RECORD)) →
      (t = FULL_RECORD ∨ t = LAST_RECORD) →
      LogReader.assemble buf (pre ++ (t, d) :: rest) =
        (buf ++ joinData pre ++ d) :: LogReader.assemble [] rest := by
  intro pre
  induction pre with
  | nil =>
    intro buf rest _ ht
    simp [LogReader.assemble, joinData, ht]
  | cons f pre ih =>
    intro buf rest hpre ht
    obtain ⟨tf, df⟩ := f
    have hf : ¬(tf = FULL_RECORD ∨ tf = LAST_RECORD) := hpre (tf, df) (List.mem_cons_self _ _)
    have hrest : ∀ g ∈ pre, ¬(g.1 = FULL_RECORD ∨ g.1 = LAST_RECORD) :=
      fun g hg => hpre g (List.mem_cons_of_mem _ hg)
    rw [List.cons_append,
        show LogReader.assemble buf ((tf, df) :: (pre ++ (t, d) :: rest)) =
          LogReader.assemble (buf ++ df) (pre ++ (t, d) :: rest) from by
            simp [LogReader.assemble, hf],
        ih (buf ++ df) rest hrest ht]
    simp [joinData, List.append_assoc]

/-- C4 (amended): the fragment loop of `LogReader.__iter__` performs no
type-sequence validation and never discards: every fragment's payload is
appended to the batch buffer regardless of its type, and a batch is
yielded exactly when a FULL or LAST fragment is appended — so the first
yielded batch is the concatenation of all payloads up to and including the
first FULL/LAST fragment, whatever the preceding types were. -/
theorem c4_no_resync :
    ∀ (pre : List (Nat × Bytes)) (t : Nat) (d : Bytes) (rest : List (Nat × Bytes)),
      (∀ f ∈ pre, ¬(f.1 = FULL_RECORD ∨ f.1 = LAST_RECORD)) →
      (t = FULL_RECORD ∨ t = LAST_RECORD) →
      LogReader.batches (pre ++ (t, d) :: rest) =
        (joinData pre ++ d) :: LogReader.assemble [] rest := by
  intro pre t d rest hpre ht
  rw [LogReader.batches, assemble_accumulates t d pre [] rest hpre ht]
  simp

/-- Witness for C4 at a concrete input: a FIRST fragment followed by a
FULL fragment; the FIRST fragment's payload is kept, not discarded. -/
theorem c4_no_resync_witness :
    LogReader.batches [(2, [1]), (1, [2])] =
      (joinData [(2, [1])] ++ [2]) :: LogReader.assemble [] [] :=
  c4_no_resync [(2, [1])] 1 [2] [] (by decide) (by decide)

/-- Counterexample for C4 as stated: on the fragment sequence
FIRST `[1]`, FULL `[2]` the code yields the single batch `[1, 2]`
(the partial buffer `[1]` is included), whereas the claimed
discard-and-resynchronise behaviour (`claimedResyncBatches`, modelled from
the claim's words) would yield `[2]` alone; the two disagree. -/
theorem c4_counterexample :
    LogReader.batches [(2, [1]), (1, [2])] = [[1, 2]] ∧
    claimedResyncBatches none [(2, [1]), (1, [2])] = [[2]] ∧
    ([[1, 2]] : List Bytes) ≠ [[2]] :=
  ⟨rfl, rfl, by decide⟩

-- ==================================================================
-- C3
-- ==================================================================

theorem decodeOps_length :
    ∀ (n : Nat) (l : Bytes) (ops : List Op) (rest : Bytes),
      decodeOps n l = some (ops, rest) → ops.length = n := by
  intro n
  induction n with
  | zero =>
    intro l ops rest h
    simp [decodeOps] at h
    simp [h.1.symm]
  | succ n ih =>
    intro l ops rest h
    simp only [decodeOps] at h
    cases hop : decodeOp l with
    | none => simp [hop] at h
    | some p =>
      obtain ⟨op, l2⟩ := p
      simp only [hop] at h
      cases hops : decodeOps n l2 with
      | none => simp [hops] at h
      | some q =>
        obtain ⟨ops2, l3⟩ := q
        simp only [hops, Option.some.injEq, Prod.mk.injEq] at h
        have := ih l2 ops2 l3 hops
        rw [← h.1]
        simp [this]

/-- C3 (amended): when `Batch.__iter__` succeeds, either the batch payload
after the 12-byte header is empty and no operations are yielded (the early
`return`, whatever `count` says), or exactly the declared `count`
operations are yielded and the buffer is exactly exhausted.  Leftover
bytes after the declared operations make the final
`assert reader.bytes_left() == 0` fail — an error, not a tolerated,
warned-about discard. -/
theorem c3_batch_count :
    ∀ (buf : Bytes) (ops : List Op), Batch.ops buf = some ops →
      (buf.drop 12 = [] ∧ ops = []) ∨
      (ops.length = Batch.count buf ∧
        decodeOps (Batch.count buf) (buf.drop 12) = some (ops, [])) := by
  intro buf ops h
  by_cases hlen : (buf.drop 12).length = 0
  · left
    rw [Batch.ops, if_pos hlen] at h
    exact ⟨List.length_eq_zero.mp hlen, (Option.some.injEq _ _ ▸ h).symm⟩
  · right
    rw [Batch.ops, if_neg hlen] at h
    cases heq : decodeOps (Batch.count buf) (buf.drop 12) with
    | none => simp [heq] at h
    | some p =>
      obtain ⟨ops2, rest2⟩ := p
      simp only [heq] at h
      by_cases hrest : rest2.length = 0
      · rw [if_pos hrest] at h
        have hops : ops2 = ops := by simpa using h
        have hnil : rest2 = [] := List.length_eq_zero.mp hrest
        subst hops
        subst hnil
        constructor
        · exact decodeOps_length _ _ _ _ heq
        · rfl
      · rw [if_neg hrest] at h
        exact absurd h (by simp)

/-- Witness for C3 at a concrete input: a well-formed one-operation batch
buffer decodes to exactly its declared single operation with the buffer
exhausted. -/
theorem c3_batch_count_witness :
    (wellFormedBatchBuf.drop 12 = [] ∧ [Op.del [65]] = ([] : List Op)) ∨
    ([Op.del [65]].length = Batch.count wellFormedBatchBuf ∧
      decodeOps (Batch.count wellFormedBatchBuf) (wellFormedBatchBuf.drop 12) =
        some ([Op.del [65]], [])) :=
  c3_batch_count wellFormedBatchBuf [Op.del [65]] rfl

/-- Counterexample for C3 as stated: `trailingBatchBuf` declares one
operation, that operation decodes cleanly with one byte left over, and the
claim says the leftover byte is discarded tolerantly with a warning — but
`Batch.__iter__` instead fails its `assert reader.bytes_left() == 0`
(modelled by `none`), yielding nothing. -/
theorem c3_counterexample :
    Batch.ops trailingBatchBuf = none ∧
    Batch.count trailingBatchBuf = 1 ∧
    decodeOps 1 (trailingBatchBuf.drop 12) = some ([Op.del [65]], [99]) :=
  ⟨rfl, rfl, rfl⟩

-- ==================================================================
-- C10
-- ==================================================================

mutual
theorem get_folder_eq_find? (folder_id : Bytes) : ∀ (n : Node),
    get_folder folder_id n =
      (folderPreorder n).find? (fun m => folder_id.isSuffixOf (nodeFolderUri m))
  | Node.playlist u => by simp [get_folder, folderPreorder]
  | Node.folder name uri children => by
    by_cases h : folder_id.isSuffixOf (uri.getD [])
    · simp [get_folder, folderPreorder, List.find?_cons, nodeFolderUri, h]
    · simp only [get_folder, folderPreorder, List.find?_cons, nodeFolderUri, h, if_neg]
      exact get_folder_children_eq_find? folder_id children

theorem get_folder_children_eq_find? (folder_id : Bytes) : ∀ (l : List Node),
    get_folder_children folder_id l =
      (folderPreorderList l).find? (fun m => folder_id.isSuffixOf (nodeFolderUri m))
  | [] => by simp [get_folder_children, folderPreorderList]
  | c :: cs => by
    rw [show folderPreorderList (c :: cs) = folderPreorder c ++ folderPreorderList cs
          from rfl,
        List.find?_append, ← get_folder_eq_find? folder_id c,
        ← get_folder_children_eq_find? folder_id cs]
    cases h : get_folder folder_id c <;> simp [get_folder_children, h, Option.or]
end

mutual
theorem folderPreorder_folders : ∀ (n : Node), ∀ m ∈ folderPreorder n, nodeIsFolder m = true
  | Node.playlist u => by simp [folderPreorder]
  | Node.folder name uri children => by
    intro m hm
    rw [show folderPreorder (Node.folder name uri children) =
          Node.folder name uri children :: folderPreorderList children from rfl] at hm
    rcases List.mem_cons.mp hm with h | h
    · subst h; rfl
    · exact folderPreorderList_folders children m h

theorem folderPreorderList_folders :
    ∀ (l : List Node), ∀ m ∈ folderPreorderList l, nodeIsFolder m = true
  | [] => by simp [folderPreorderList]
  | c :: cs => by
    intro m hm
    rw [show folderPreorderList (c :: cs) = folderPreorder c ++ folderPreorderList cs
          from rfl] at hm
    rcases List.mem_append.mp hm with h | h
    · exact folderPreorder_folders c m h
    · exact folderPreorderList_folders cs m h
end

/-- C10: `get_folder` is exactly the first hit of a depth-first pre-order
walk over the folder nodes (each folder tested before its children, which
are visited in stored order) whose `uri` — the empty string when absent —
ends with `folder_id`; a returned node is always a folder (playlists are
never returned); and with the empty `folder_id` any folder, in particular
the uri-less root produced by `parse`, matches immediately, so the root
itself is returned. -/
theorem c10_get_folder :
    (∀ (folder_id : Bytes) (t : Node),
      get_folder folder_id t =
        (folderPreorder t).find? (fun m => folder_id.isSuffixOf (nodeFolderUri m))) ∧
    (∀ (folder_id : Bytes) (t r : Node),
      get_folder folder_id t = some r → nodeIsFolder r = true) ∧
    (∀ (name : Option Bytes) (uri : Option Bytes) (children : List Node),
      get_folder [] (Node.folder name uri children) =
        some (Node.folder name uri children)) := by
  refine ⟨fun fid t => get_folder_eq_find? fid t, ?_, ?_⟩
  · intro fid t r h
    rw [get_folder_eq_find? fid t] at h
    exact folderPreorder_folders t r (List.mem_of_find?_eq_some h)
  · intro name uri children
    have hsuf : ([] : Bytes).isSuffixOf (uri.getD []) = true := by
      simp [List.isSuffixOf]
    simp [get_folder, hsuf]

/-- Witness for C10 at a concrete input: searching the one-node root tree
with the empty folder id returns the root, which is a folder. -/
theorem c10_get_folder_witness : nodeIsFolder (Node.folder none none []) = true :=
  c10_get_folder.2.1 [] (Node.folder none none []) (Node.folder none none []) rfl

-- ==================================================================
-- C5
-- ==================================================================

/-- C5 (the claim describes the intent; the code slips): on
`"Users/a-b-user/0003.log"` the code walks leaf to root, finds the segment
`"a-b-user"`, and — because `tail.rsplit("-")[0]` without a maxsplit splits
at *every* dash — returns `"a"`, the part before the *first* dash, not
`"a-b"`, the part before the final dash that the claim (and the inverse of
`get_leveldb_rootlist`'s `join(rootpath, username) + "-user"`) requires.
The second conjunct confirms the leaf-to-root order: with `-user` segments
at two levels, the one nearer the leaf wins. -/
theorem c5_username_extraction :
    SpotifyLevelDB.extract_username_from_filepath dashedUserPath = some [97] ∧
    SpotifyLevelDB.extract_username_from_filepath dashedUserPath ≠ some [97, 45, 98] ∧
    SpotifyLevelDB.extract_username_from_filepath twoUserPath = some [97] :=
  ⟨rfl, by decide, rfl⟩

-- ==================================================================
-- C1
-- ==================================================================

/-- C1 (amended): the locator's scan is not tolerant.  An error raised
while reading a candidate file (`find_fn` returning `Except.error`)
propagates out of `SpotifyLevelDB.seek` and aborts the whole scan — nothing
catches it — whereas a file that reads cleanly but yields no value is
skipped and the scan continues with the remaining files. -/
theorem c1_seek_error_propagation :
    (∀ (find_fn : Bytes → Bytes → Except Unit (Option Bytes))
       (file_suffix k filepath : Bytes) (rest : List Bytes),
      file_suffix.isSuffixOf filepath = true → k ≠ [] →
      find_fn k filepath = Except.error () →
      SpotifyLevelDB.seek find_fn file_suffix (some k) (filepath :: rest) =
        Except.error ()) ∧
    (∀ (find_fn : Bytes → Bytes → Except Unit (Option Bytes))
       (file_suffix k filepath : Bytes) (rest : List Bytes),
      file_suffix.isSuffixOf filepath = true → k ≠ [] →
      find_fn k filepath = Except.ok none →
      SpotifyLevelDB.seek find_fn file_suffix (some k) (filepath :: rest) =
        SpotifyLevelDB.seek find_fn file_suffix (some k) rest) := by
  constructor
  · intro find_fn file_suffix k filepath rest hsuf hk hfind
    simp [SpotifyLevelDB.seek, hsuf, truthyBytes, hk, hfind]
  · intro find_fn file_suffix k filepath rest hsuf hk hfind
    simp [SpotifyLevelDB.seek, hsuf, truthyBytes, hk, hfind]

/-- Witness for C1 at concrete inputs: a failing reader aborts the scan on
the spot; a cleanly-empty reader lets the scan move to the next file. -/
theorem c1_seek_error_propagation_witness :
    SpotifyLevelDB.seek (fun _ _ => Except.error ()) [46] (some [1]) [[46]] =
      Except.error () ∧
    SpotifyLevelDB.seek (fun _ _ => Except.ok none) [46] (some [1]) [[46], [47]] =
      SpotifyLevelDB.seek (fun _ _ => Except.ok none) [46] (some [1]) [[47]] :=
  ⟨c1_seek_error_propagation.1 (fun _ _ => Except.error ()) [46] [1] [46] []
     (by decide) (by decide) rfl,
   c1_seek_error_propagation.2 (fun _ _ => Except.ok none) [46] [1] [46] [[47]]
     (by decide) (by decide) rfl⟩

/-- Counterexample for C1 as stated: scanning `["a.ldb", "b.ldb"]` for user
`"alice"`, the first file's footer-magic check fails and the uncaught error
aborts `SpotifyLevelDB.get` — even though the second candidate file binds
the rootlist key to the value `[7]`, as the second conjunct shows the scan
would have found. -/
theorem c1_counterexample :
    SpotifyLevelDB.get (some [97, 108, 105, 99, 101]) [filepathALdb, filepathBLdb]
      (fun _ _ => Except.ok none) findWithMagicCheck = Except.error () ∧
    findWithMagicCheck (SpotifyLevelDB.make_key_from_username [97, 108, 105, 99, 101])
      filepathBLdb = Except.ok (some [7]) :=
  ⟨rfl, rfl⟩

-- ==================================================================
-- C8
-- ==================================================================

theorem playlist_not_isPrefixOf_of_startGroup {r : Bytes}
    (h : startGroupB.isPrefixOf r = true) : playlistB.isPrefixOf r = false := by
  rw [List.isPrefixOf_iff_prefix] at h
  obtain ⟨t, ht⟩ := h
  by_contra hcon
  rw [Bool.not_eq_false, List.isPrefixOf_iff_prefix] at hcon
  obtain ⟨u, hu⟩ := hcon
  rw [← ht] at hu
  simp [startGroupB, playlistB] at hu

/-- C8: on a row beginning with `"start-group:"` the decoder pushes the
current folder and opens a new one whose `name` is the percent-plus-decoded
last colon-separated segment and whose `uri` is
`"spotify:user:" + user_id + ":folder:" + zfill(16)` of the second-to-last
segment; concretely, `"My+Best%20Hits"` decodes to `"My Best Hits"`,
`"abc"` pads to `"0000000000000abc"`, and a full `parse` run produces the
folder node with exactly those fields. -/
theorem c8_start_group_row :
    (∀ (user_id row : Bytes) (rest : List Bytes) (cur : PFolder)
       (stack : List PFolder) (lastT sndLastT : Bytes),
      startGroupB.isPrefixOf (truncRow row) = true →
      segPair (truncRow row) = some (lastT, sndLastT) →
      parse_rows user_id (row :: rest) cur stack =
        parse_rows user_id rest
          ⟨some (unquote_plus lastT),
           some (spotifyUserB ++ user_id ++ folderColonB ++ zfill 16 sndLastT), []⟩
          (cur :: stack)) ∧
    unquote_plus [77, 121, 43, 66, 101, 115, 116, 37, 50, 48, 72, 105, 116, 115] =
      [77, 121, 32, 66, 101, 115, 116, 32, 72, 105, 116, 115] ∧
    zfill 16 [97, 98, 99] =
      [48, 48, 48, 48, 48, 48, 48, 48, 48, 48, 48, 48, 48, 97, 98, 99] ∧
    parse (spotifyB ++ startGroupB ++
        [97, 98, 99, 58, 77, 121, 43, 66, 101, 115, 116, 37, 50, 48, 72, 105, 116, 115])
        [117] =
      some (Node.folder none none
        [Node.folder (some [77, 121, 32, 66, 101, 115, 116, 32, 72, 105, 116, 115])
          (some (spotifyUserB ++ [117] ++ folderColonB ++
            [48, 48, 48, 48, 48, 48, 48, 48, 48, 48, 48, 48, 48, 97, 98, 99]))
          []]) := by
  refine ⟨?_, rfl, rfl, rfl⟩
  intro user_id row rest cur stack lastT sndLastT hsg hseg
  have hpl : playlistB.isPrefixOf (truncRow row) = false :=
    playlist_not_isPrefixOf_of_startGroup hsg
  simp [parse_rows, hpl, hsg, hseg]

/-- Witness for C8 at a concrete row `"start-group:g:n"`: the new current
folder carries the decoded name `"n"` and the padded group id `"g"`. -/
theorem c8_start_group_row_witness :
    parse_rows [117] [startGroupB ++ [103, 58, 110]] ⟨none, none, []⟩ [] =
      parse_rows [117] []
        ⟨some (unquote_plus [110]),
         some (spotifyUserB ++ [117] ++ folderColonB ++ zfill 16 [103]), []⟩
        [⟨none, none, []⟩] :=
  c8_start_group_row.1 [117] (startGroupB ++ [103, 58, 110]) [] ⟨none, none, []⟩ []
    [110] [103] (by decide) (by decide)

-- ==================================================================
-- C2
-- ==================================================================

theorem splitOnByte_ne_nil (sep : Nat) (l : Bytes) : splitOnByte sep l ≠ [] := by
  cases l with
  | nil => simp [splitOnByte]
  | cons b rest =>
    simp only [splitOnByte]
    by_cases h : b = sep
    · simp [h]
    · simp only [if_neg h]
      cases splitOnByte sep rest <;> simp

theorem splitOnByte_length (sep : Nat) : ∀ l : Bytes,
    (splitOnByte sep l).length = l.count sep + 1 := by
  intro l
  induction l with
  | nil => simp [splitOnByte]
  | cons b rest ih =>
    by_cases h : b = sep
    · simp [splitOnByte, h, List.count_cons, ih]
    · simp only [splitOnByte, if_neg h]
      cases hs : splitOnByte sep rest with
      | nil => exact absurd hs (splitOnByte_ne_nil sep rest)
      | cons t ts =>
        rw [hs] at ih
        simp only [List.length_cons] at ih ⊢
        simp [List.count_cons, h]
        omega

theorem segPair_isSome_of_startGroup {r : Bytes}
    (h : startGroupB.isPrefixOf r = true) : ∃ a b, segPair r = some (a, b) := by
  rw [List.isPrefixOf_iff_prefix] at h
  obtain ⟨t, ht⟩ := h
  have hsg : startGroupB.count 58 = 1 := by decide
  have hcount : 1 ≤ r.count 58 := by
    rw [← ht, List.count_append, hsg]
    omega
  have hlen : 2 ≤ (splitOnByte 58 r).length := by
    rw [splitOnByte_length]
    omega
  have hlenr : 2 ≤ ((splitOnByte 58 r).reverse).length := by simpa using hlen
  rcases hrev : (splitOnByte 58 r).reverse with _ | ⟨a, _ | ⟨b, rev⟩⟩
  · rw [hrev] at hlenr; simp at hlenr
  · rw [hrev] at hlenr; simp at hlenr
  · exact ⟨a, b, by simp [segPair, hrev]⟩

theorem parse_rows_isSome_iff (user_id : Bytes) :
    ∀ (rows : List Bytes) (cur : PFolder) (stack : List PFolder),
      (parse_rows user_id rows cur stack).isSome ↔
        ∀ n, (rows.take n).countP isEndGroupRow ≤
             stack.length + (rows.take n).countP isStartGroupRow := by
  intro rows
  induction rows with
  | nil =>
    intro cur stack
    simp only [parse_rows, Option.isSome_some, true_iff]
    intro n
    simp
  | cons row rest ih =>
    intro cur stack
    by_cases h1 : playlistB.isPrefixOf (truncRow row)
    · have hS : isStartGroupRow row = false := by simp [isStartGroupRow, isPlaylistRow, h1]
      have hE : isEndGroupRow row = false := by simp [isEndGroupRow, isPlaylistRow, h1]
      rw [show parse_rows user_id (row :: rest) cur stack =
            parse_rows user_id rest
              (cur.addChild (Node.playlist (spotifyB ++ truncRow row))) stack
          from by simp [parse_rows, h1]]
      rw [ih _ stack]
      constructor
      · intro h n
        cases n with
        | zero => simp
        | succ n =>
          rw [List.take_succ_cons]
          have := h n
          simp [List.countP_cons, hS, hE]
          omega
      · intro h n
        have := h (n + 1)
        rw [List.take_succ_cons] at this
        simp [List.countP_cons, hS, hE] at this
        omega
    · by_cases h2 : startGroupB.isPrefixOf (truncRow row)
      · have hS : isStartGroupRow row = true := by
          simp [isStartGroupRow, isPlaylistRow, h1, h2]
        have hE : isEndGroupRow row = false := by simp [isEndGroupRow, h2]
        obtain ⟨a, b, hseg⟩ := segPair_isSome_of_startGroup h2
        rw [show parse_rows user_id (row :: rest) cur stack =
              parse_rows user_id rest
                ⟨some (unquote_plus a),
                 some (spotifyUserB ++ user_id ++ folderColonB ++ zfill 16 b), []⟩
                (cur :: stack)
            from by simp [parse_rows, h1, h2, hseg]]
        rw [ih _ (cur :: stack)]
        constructor
        · intro h n
          cases n with
          | zero => simp
          | succ n =>
            rw [List.take_succ_cons]
            have := h n
            simp only [List.length_cons] at this
            simp [List.countP_cons, hS, hE]
            omega
        · intro h n
          have := h (n + 1)
          rw [List.take_succ_cons] at this
          simp [List.countP_cons, hS, hE] at this
          simp only [List.length_cons]
          omega
      · by_cases h3 : endGroupB.isPrefixOf (truncRow row)
        · have hS : isStartGroupRow row = false := by simp [isStartGroupRow, h2]
          have hE : isEndGroupRow row = true := by
            simp [isEndGroupRow, isPlaylistRow, h1, h2, h3]
          cases stack with
          | nil =>
            rw [show parse_rows user_id (row :: rest) cur [] = none
                from by simp [parse_rows, h1, h2, h3]]
            refine iff_of_false (by simp) ?_
            intro hall
            have := hall 1
            rw [List.take_succ_cons] at this
            simp [List.countP_cons, hS, hE] at this
          | cons parent stack2 =>
            rw [show parse_rows user_id (row :: rest) cur (parent :: stack2) =
                  parse_rows user_id rest (parent.addChild cur.toNode) stack2
                from by simp [parse_rows, h1, h2, h3]]
            rw [ih _ stack2]
            constructor
            · intro h n
              cases n with
              | zero => simp
              | succ n =>
                rw [List.take_succ_cons]
                have := h n
                simp only [List.length_cons]
                simp [List.countP_cons, hS, hE]
                omega
            · intro h n
              have := h (n + 1)
              rw [List.take_succ_cons] at this
              simp only [List.length_cons] at this
              simp [List.countP_cons, hS, hE] at this
              omega
        · have hS : isStartGroupRow row = false := by simp [isStartGroupRow, h2]
          have hE : isEndGroupRow row = false := by simp [isEndGroupRow, h3]
          rw [show parse_rows user_id (row :: rest) cur stack =
                parse_rows user_id rest cur stack
              from by simp [parse_rows, h1, h2, h3]]
          rw [ih _ stack]
          constructor
          · intro h n
            cases n with
            | zero => simp
            | succ n =>
              rw [List.take_succ_cons]
              have := h n
              simp [List.countP_cons, hS, hE]
              omega
          · intro h n
            have := h (n + 1)
            rw [List.take_succ_cons] at this
            simp [List.countP_cons, hS, hE] at this
            omega

/-- C2 (amended): an `end-group` row reached with an empty stack is not
skipped — `stack.pop()` raises an uncaught `IndexError`, so the decoder
fails and returns no tree.  `parse` succeeds exactly when every prefix of
the row list contains at least as many `start-group` rows as `end-group`
rows; excess `start-group`s are still closed tolerantly at the end. -/
theorem c2_end_group_empty_stack :
    ∀ (data user_id : Bytes),
      (parse data user_id).isSome ↔
        ∀ n, ((splitRows data).take n).countP isEndGroupRow ≤
             ((splitRows data).take n).countP isStartGroupRow := by
  intro data user_id
  have h := parse_rows_isSome_iff user_id (splitRows data) ⟨none, none, []⟩ []
  simpa using h

/-- Counterexample for C2 as stated: on `"spotify:end-group:x"` the
`end-group` row arrives with an empty stack and the decoder fails with an
`IndexError` (modelled by `none`) instead of skipping the row and
returning a valid tree. -/
theorem c2_counterexample : parse endGroupOnlyData [117] = none := rfl
